import Mathlib

/-!
Verification of the NFL betting advisor core pipeline.

This file shallowly embeds the probability-adjustment and scoring pipeline of
the repository (src/nfl_betting_advisor): the odds conversions in `utils.py`
and `models.py`, the injury adjuster (`analysis/injury_adjuster.py`), the
historical adjuster (`analysis/historical_analyzer.py`), the heuristic
scoring engine (`analysis/ai_advisor.py`), and the evaluation orchestrator
(`parlay_evaluator.py`).

Modelling conventions:
- Python floats are modelled as exact rationals (ℚ); decimal literals such as
  0.05 or 1e-6 become the corresponding rationals.
- A raised exception is modelled as `none` / `Except.error`; `Optional`
  values become `Option`.
- Python dictionaries (leg metadata, player directory, head-to-head records,
  head-to-head memo cache) are modelled as association lists with
  first-match lookup; keys are unique in every run the theorems touch.
- Python truthiness of an `Optional[str]` (`None` and `""` are falsy) is
  modelled by `optTruthy`; the orelse idiom `a or b` on strings and floats
  keeps the falsiness of `""` and `0.0` (`orElseStr`, `pyOrQ`).
- `"%.2f"`-style formatting is modelled by `fmt2` (round half away from
  zero; no theorem here depends on the behaviour at exact half-way points).
- External fetches are a `DataSources` record of `Except`-valued functions;
  a fetch failure is `Except.error ()`.
-/

/-- Truncation toward zero, the semantics of Python `int()` on a float. -/
def pyInt (q : ℚ) : ℤ := if 0 ≤ q then ⌊q⌋ else -⌊-q⌋

/-- Two-decimal rendering of a rational, modelling Python `"%.2f"` formatting
(rounding half away from zero). -/
def fmt2 (q : ℚ) : String :=
  let n : ℤ := if 0 ≤ q then ⌊q * 100 + 1/2⌋ else -⌊-(q * 100) + 1/2⌋
  let m : ℕ := n.natAbs
  (if n < 0 then "-" else "") ++ toString (m / 100) ++ "." ++
    (if m % 100 < 10 then "0" else "") ++ toString (m % 100)

/-- Percent rendering, modelling Python `"{:.2%}"` formatting. -/
def fmtPercent (q : ℚ) : String := fmt2 (q * 100) ++ "%"

/-- Signed integer rendering, modelling Python `"{:+d}"` formatting. -/
def fmtSigned (n : ℤ) : String := (if 0 ≤ n then "+" else "") ++ toString n

/-- Rendering of a Python `Optional[str]` inside an f-string
(`None` prints as `"None"`). -/
def pyStr : Option String → String
  | some s => s
  | none => "None"

/-- ASCII lower-casing, modelling `str.lower()` on the identifiers used here. -/
def lowerStr (s : String) : String := ⟨s.data.map Char.toLower⟩

/-- First-match association-list lookup, modelling `dict.get` /
`key in dict` on dictionaries (keys are unique in every dictionary built by
the code). -/
def alistLookup {α β : Type} [DecidableEq α] : List (α × β) → α → Option β
  | [], _ => none
  | (k, v) :: rest, key => if k = key then some v else alistLookup rest key

/-- Association-list insert-or-overwrite, modelling `dict[key] = value`. -/
def alistInsert {α β : Type} [DecidableEq α] : List (α × β) → α → β → List (α × β)
  | [], k, v => [(k, v)]
  | (k', v') :: rest, k, v =>
      if k' = k then (k, v) :: rest else (k', v') :: alistInsert rest k v

/-- Python truthiness of an `Optional[str]`: `None` and `""` are falsy. -/
abbrev optTruthy (o : Option String) : Prop := o ≠ none ∧ o ≠ some ""

/-- `a or b` on an optional string and an optional string
(`leg.team or (leg.player.team if leg.player else None)`). -/
def orElseStr (a b : Option String) : Option String :=
  match a with
  | some s => if s = "" then b else some s
  | none => b

/-- `x or d` where `x` is an `Optional[float]`: `None` and `0.0` are falsy. -/
def pyOrQ (o : Option ℚ) (d : ℚ) : ℚ :=
  match o with
  | some v => if v = 0 then d else v
  | none => d

/-- Python substring containment on lists of characters (`pat in s`). -/
def startsWithCh : List Char → List Char → Bool
  | [], _ => true
  | _ :: _, [] => false
  | p :: ps, c :: cs => p = c && startsWithCh ps cs

/-- Python `pat in s` for strings (substring containment). -/
def containsCh : List Char → List Char → Bool
  | pat, [] => pat.isEmpty
  | pat, c :: rest => startsWithCh pat (c :: rest) || containsCh pat rest

/-- `pat in s.lower()` as used by the note scanner of the scoring engine. -/
def noteHas (note : String) (pat : String) : Bool :=
  containsCh pat.data (lowerStr note).data

/-- models.Player. -/
structure Player where
  player_id : String
  name : String
  team : String
  pos : String
  is_injured : Bool := false
  injury_status : Option String := none
  deriving DecidableEq, Repr

/-- models.BetLeg. The `metadata` dictionary is an association list of
string keys. -/
structure BetLeg where
  leg_id : String
  description : String
  odds_american : ℤ
  market_type : String
  team : Option String := none
  player : Option Player := none
  baseline_probability : Option ℚ := none
  adjusted_probability : Option ℚ := none
  notes : List String := []
  metadata : List (String × String) := []
  deriving DecidableEq, Repr

/-- models.Parlay. -/
structure Parlay where
  legs : List BetLeg
  stake : ℚ
  deriving DecidableEq, Repr

/-- The payoff of `BetLeg.implied_probability` when the odds are nonzero:
`100/(odds+100)` for positive odds, `-odds/(-odds+100)` for negative odds. -/
def impliedVal (o : ℤ) : ℚ :=
  if 0 < o then 100 / ((o : ℚ) + 100) else (-(o : ℚ)) / (-(o : ℚ) + 100)

/-- models.BetLeg.implied_probability; `none` models the `ValueError` raised
on zero odds. -/
def impliedProbability (o : ℤ) : Option ℚ :=
  if o = 0 then none else some (impliedVal o)

/-- utils.american_to_decimal; `none` models the `ValueError` on zero odds.
The program computes `(odds / 100) + 1` resp. `(100 / abs(odds)) + 1` in
binary floating point; this model keeps the exact rational value. The
rounding of the float result (relative error ~1e-16) matters downstream
only through the `int()` truncation in `decimal_to_american`, which it can
shift by at most one, so round-trip statements here claim only that ±1
truncation tolerance. -/
def american_to_decimal (o : ℤ) : Option ℚ :=
  if o = 0 then none
  else if 0 < o then some ((o : ℚ) / 100 + 1)
  else some (100 / |(o : ℚ)| + 1)

/-- utils.decimal_to_american; `none` models the `ValueError` on decimal
odds ≤ 1. `pyInt` truncates the exact rational product/quotient where the
program truncates its float-rounded counterpart, which can land just below
an integer (CPython evaluates `int((2.01 - 1) * 100)` to 100 where the
exact value is 101); theorems about the round trip therefore claim only
the ±1 truncation tolerance, never exactness. -/
def decimal_to_american (d : ℚ) : Option ℤ :=
  if d ≤ 1 then none
  else if 2 ≤ d then some (pyInt ((d - 1) * 100))
  else some (pyInt (-100 / (d - 1)))

/-- The odds round trip american → decimal → american. -/
def oddsRoundTrip (o : ℤ) : Option ℤ :=
  (american_to_decimal o).bind decimal_to_american

/-- utils.expected_value. -/
def expectedValueQ (probability decimalOdds stake : ℚ) : ℚ :=
  probability * (decimalOdds - 1) * stake - (1 - probability) * stake

/-- models.Parlay.combined_probability: `none` as soon as one leg has no
adjusted probability. -/
def combinedProbabilityAux : ℚ → List BetLeg → Option ℚ
  | acc, [] => some acc
  | acc, leg :: rest =>
      match leg.adjusted_probability with
      | none => none
      | some a => combinedProbabilityAux (acc * a) rest

/-- models.Parlay.combined_probability. -/
def combinedProbability (p : Parlay) : Option ℚ :=
  combinedProbabilityAux 1 p.legs

/-- models.Parlay.combined_decimal_odds: `none` models the `ValueError`
raised on zero odds or a zero implied probability. -/
def combinedDecimalOddsAux : ℚ → List BetLeg → Option ℚ
  | acc, [] => some acc
  | acc, leg :: rest =>
      match impliedProbability leg.odds_american with
      | none => none
      | some i => if i = 0 then none else combinedDecimalOddsAux (acc * (1 / i)) rest

/-- models.Parlay.combined_decimal_odds. -/
def combinedDecimalOdds (p : Parlay) : Option ℚ :=
  combinedDecimalOddsAux 1 p.legs

/-- One record of the injury feed (SportsDataIO dictionary): the code reads
the keys `Team`, `Name`, `Position`, `Status`, each possibly absent. -/
structure Injury where
  team : Option String := none
  name : Option String := none
  pos : Option String := none
  status : Option String := none
  deriving DecidableEq, Repr

/-- analysis.injury_adjuster.KEY_DEFENSIVE_POSITIONS. -/
def KEY_DEFENSIVE_POSITIONS : List String :=
  ["CB", "DB", "FS", "SS", "S", "LB", "DE", "DT", "EDGE"]

/-- analysis.injury_adjuster.OFFENSIVE_SKILL_POSITIONS. -/
def OFFENSIVE_SKILL_POSITIONS : List String := ["QB", "RB", "WR", "TE"]

/-- InjuryAdjuster._is_key_defender: `injury.get("Position")` must be a
member of the defensive-position set (an absent position never is). -/
abbrev isKeyDefender (i : Injury) : Prop :=
  i.pos.getD "" ∈ KEY_DEFENSIVE_POSITIONS

/-- InjuryAdjuster._is_offensive_star. -/
abbrev isOffensiveStar (i : Injury) : Prop :=
  i.pos.getD "" ∈ OFFENSIVE_SKILL_POSITIONS

/-- The qualitative note for an out/doubtful opposing defender. -/
def defenderNote (i : Injury) : String :=
  "Opponent missing key defender " ++ pyStr i.name ++ " (" ++ pyStr i.pos ++ ")"

/-- The qualitative note for an out/doubtful offensive teammate. -/
def teammateNote (pl : Player) (i : Injury) : String :=
  pl.name ++ "\x27s teammate " ++ pyStr i.name ++ " (" ++ pyStr i.pos ++ ") is out"

/-- The body of the injury-scan loop of InjuryAdjuster.adjust_leg: one
injury record updates the accumulated (multiplier, qualitative notes). -/
def injuryStep (lp : Option Player) (opponentTeam : Option String)
    (acc : ℚ × List String) (i : Injury) : ℚ × List String :=
  if optTruthy opponentTeam ∧ i.team ≠ opponentTeam then acc
  else if i.status = some "Out" ∨ i.status = some "Doubtful" then
    match lp with
    | some pl =>
        if isKeyDefender i ∧ i.team ≠ some pl.team then
          (acc.1 + 5/100, acc.2 ++ [defenderNote i])
        else if isOffensiveStar i ∧ i.team = some pl.team then
          (acc.1 - 5/100, acc.2 ++ [teammateNote pl i])
        else acc
    | none => acc
  else acc

/-- Clamp to the closed interval [0.01, 0.99]
(`min(max(x, 0.01), 0.99)` in both adjusters). -/
def clamp (x : ℚ) : ℚ := min (max x (1/100)) (99/100)

/-- InjuryAdjuster.adjust_leg. The first component is the returned
`Optional[float]`, the second the leg after the in-place note mutation. -/
def adjust_leg (injuries : List Injury) (leg : BetLeg)
    (opponentTeam : Option String) : Option ℚ × BetLeg :=
  match leg.baseline_probability with
  | none => (none, leg)
  | some b =>
      let scanned := injuries.foldl (injuryStep leg.player opponentTeam) (1, [])
      let multiplier := max (5/100) scanned.1
      if 1/1000000 < |multiplier - 1| then
        (some (clamp (b * multiplier)),
         { leg with notes := leg.notes ++ scanned.2 ++
              ["Injury multiplier applied: " ++ fmt2 multiplier] })
      else (none, leg)

/-- Sum of the values of a head-to-head record
(`sum(self.head_to_head_record.values())`). -/
def sumVals (record : List (String × ℤ)) : ℤ :=
  (record.map Prod.snd).sum

/-- The record-summary note of HistoricalAnalyzer.adjust_leg. -/
def histNote (t : String) (wins total : ℤ) : String :=
  "Historical edge: " ++ t ++ " " ++ toString wins ++ "-" ++
    toString (total - wins) ++ " over opponent"

/-- HistoricalAnalyzer.adjust_leg. The first component is the returned
`Optional[float]`, the second the leg after the in-place note mutation. -/
def hist_adjust_leg (record : List (String × ℤ)) (leg : BetLeg)
    (targetTeam : Option String) : Option ℚ × BetLeg :=
  match leg.baseline_probability with
  | none => (none, leg)
  | some b =>
      match targetTeam with
      | none => (none, leg)
      | some t =>
          if t = "" then (none, leg)
          else
            match alistLookup record t with
            | none => (none, leg)
            | some _ =>
                let totalGames := sumVals record
                if totalGames = 0 then (none, leg)
                else
                  let teamWins := (alistLookup record t).getD 0
                  let winRate : ℚ := (teamWins : ℚ) / (totalGames : ℚ)
                  let multiplier : ℚ := 1 + (winRate - 1/2) * (3/10)
                  if |multiplier - 1| < 1/100 then (none, leg)
                  else
                    (some (clamp (b * multiplier)),
                     { leg with notes := leg.notes ++
                          [histNote t teamWins totalGames,
                           "Historical multiplier applied: " ++ fmt2 multiplier] })

/-- The per-leg score breakdown returned by HeuristicAIAdvisor._score_leg
(a dictionary with six fixed numeric keys). -/
structure LegScores where
  ev : ℚ
  injury : ℚ
  history : ℚ
  market : ℚ
  implied_prob : ℚ
  adjusted_prob : ℚ
  deriving DecidableEq, Repr

/-- models.EvaluationResult. -/
structure EvaluationResult where
  overall_value_score : ℚ
  verdict : String
  expected_value : Option ℚ
  combined_probability : Option ℚ
  rationale : List String
  leg_breakdown : List (String × LegScores)
  deriving DecidableEq, Repr

/-- The note-keyword signals of HeuristicAIAdvisor._score_leg:
(injury, history, market) accumulated over the leg notes. -/
def noteSignals (notes : List String) : ℚ × ℚ × ℚ :=
  notes.foldl (fun acc note =>
    (acc.1 + (if noteHas note "injury multiplier" || noteHas note "missing" then 1/10 else 0),
     acc.2.1 + (if noteHas note "historical" then 1/10 else 0),
     acc.2.2 + (if noteHas note "line movement" || noteHas note "best price" then 1/20 else 0)))
    (0, 0, 0)

/-- HeuristicAIAdvisor._score_leg; `none` models the `ValueError` on zero
odds. -/
def score_leg (leg : BetLeg) : Option LegScores :=
  match impliedProbability leg.odds_american with
  | none => none
  | some impliedProb =>
      let baseline := pyOrQ leg.baseline_probability impliedProb
      let adjusted := pyOrQ leg.adjusted_probability baseline
      let evContribution := if impliedProb = 0 then 0 else (adjusted - impliedProb) / impliedProb
      let signals := noteSignals leg.notes
      some ⟨evContribution, signals.1, signals.2.1, signals.2.2, impliedProb, adjusted⟩

/-- The fixed signal weights of HeuristicAIAdvisor (ev 0.5, injury 0.2,
history 0.15, market 0.15). -/
def valueScore (s : LegScores) : ℚ :=
  s.ev * (1/2) + s.injury * (2/10) + s.history * (15/100) + s.market * (15/100)

/-- `expected_val or 0`: Python truthiness treats both `None` and `0.0`
as falsy. -/
def evOr0 (ev : Option ℚ) : ℚ :=
  match ev with
  | none => 0
  | some v => if v = 0 then 0 else v

/-- The verdict if/elif chain of HeuristicAIAdvisor.evaluate. -/
def classifyVerdict (overall : ℚ) (ev : Option ℚ) : String :=
  if 15/100 < overall ∧ 0 < evOr0 ev then "Strong Value"
  else if 5/100 < overall then "Moderate Value"
  else if overall < -(1/10) then "High Risk"
  else "Neutral"

/-- The per-leg rationale line of HeuristicAIAdvisor.evaluate. -/
def legLine (leg : BetLeg) (s : LegScores) : String :=
  "Leg " ++ leg.leg_id ++ " " ++ leg.description ++ ": adjusted probability " ++
    fmtPercent s.adjusted_prob

/-- The per-leg loop of HeuristicAIAdvisor.evaluate: breakdown entries,
value scores and rationale lines, in leg order. -/
def scoreLegsAux : List BetLeg → Option (List (String × LegScores) × List ℚ × List String)
  | [] => some ([], [], [])
  | leg :: rest =>
      match score_leg leg with
      | none => none
      | some s =>
          match scoreLegsAux rest with
          | none => none
          | some (ls, vs, ra) =>
              some ((leg.leg_id, s) :: ls, valueScore s :: vs,
                (legLine leg s :: leg.notes.map (fun n => "  - " ++ n)) ++ ra)

/-- HeuristicAIAdvisor.evaluate; `none` models the `ValueError` raised by
the odds conversions on zero odds. -/
def advisorEvaluate (p : Parlay) : Option EvaluationResult :=
  let combinedProb := combinedProbability p
  match combinedDecimalOdds p with
  | none => none
  | some combinedDecimal =>
      let expectedVal :=
        match combinedProb with
        | some cp => some (expectedValueQ cp combinedDecimal p.stake)
        | none => none
      match scoreLegsAux p.legs with
      | none => none
      | some (legScores, valueScores, rationaleLegs) =>
          let overall : ℚ :=
            if valueScores = [] then 0 else valueScores.sum / (valueScores.length : ℚ)
          let rationale := rationaleLegs ++
            (match expectedVal with
             | some v => ["Combined expected value: $" ++ fmt2 v]
             | none => []) ++
            (match combinedProb with
             | some cp => ["Parlay hit probability: " ++ fmtPercent cp]
             | none => [])
          some ⟨overall, classifyVerdict overall expectedVal, expectedVal,
                combinedProb, rationale, legScores⟩

/-- One row of the SportsDataIO player feed: the code reads `PlayerID`,
`Name`, `Team`, `Position`, each possibly absent. -/
structure PlayerRow where
  playerId : Option String := none
  name : Option String := none
  team : Option String := none
  pos : Option String := none
  deriving DecidableEq, Repr

/-- The best-price dictionary returned by
OddsAPIClient.get_best_player_prop_odds: the code reads `bookmaker`,
`market`, `price`. -/
structure PriceInfo where
  bookmaker : Option String := none
  market : Option String := none
  price : Option ℚ := none
  deriving DecidableEq, Repr

/-- The external data collaborators of ParlayEvaluator; `Except.error ()`
models a raised exception during the fetch. -/
structure DataSources where
  getPlayers : Except Unit (List PlayerRow)
  getInjuries : Except Unit (List Injury)
  headToHead : String → String → Except Unit (List (String × ℤ))
  bestPrice : String → Option String → Except Unit (Option PriceInfo)

/-- The head-to-head memo cache created by `@lru_cache` on
ParlayEvaluator._get_head_to_head: for a single evaluator instance its key
is the ordered argument pair `(team_a, team_b)`. -/
abbrev H2HCache := List ((String × String) × List (String × ℤ))

/-- The mutable state of one ParlayEvaluator instance. -/
structure EvalState where
  playerDir : List (String × Player)
  injuryAdjuster : Option (List Injury)
  h2hCache : H2HCache
  useLiveData : Bool
  deriving DecidableEq, Repr

/-- The state of a freshly constructed ParlayEvaluator. -/
def initState (live : Bool) : EvalState :=
  ⟨[], none, [], live⟩

/-- The outcome of one ParlayEvaluator._get_head_to_head call: the record,
the cache afterwards, and whether the underlying client fetch ran (it runs
exactly on a cache miss; the maxsize-16 eviction is not modelled because no
run here exceeds 16 distinct pairs). -/
structure H2HResult where
  record : List (String × ℤ)
  cache : H2HCache
  fetched : Bool
  deriving DecidableEq, Repr

/-- ParlayEvaluator._get_head_to_head: an lru_cache-memoized fetch whose
failure handler returns `{team_a: 0, team_b: 0}` (the failure value is
cached like any other result, since the try/except sits inside the cached
function). -/
def getHeadToHead (ds : DataSources) (cache : H2HCache) (teamA teamB : String) : H2HResult :=
  match alistLookup cache (teamA, teamB) with
  | some v => ⟨v, cache, false⟩
  | none =>
      let v := match ds.headToHead teamA teamB with
        | .ok r => r
        | .error _ => [(teamA, 0), (teamB, 0)]
      ⟨v, cache ++ [((teamA, teamB), v)], true⟩

/-- The directory insertion of ParlayEvaluator._load_players for one feed
row (rows without a truthy name or team are skipped; the key is the
lower-cased name). -/
def insertPlayerRow (dir : List (String × Player)) (row : PlayerRow) : List (String × Player) :=
  match row.name, row.team with
  | some n, some t =>
      if n ≠ "" ∧ t ≠ "" then
        alistInsert dir (lowerStr n) ⟨pyStr row.playerId, n, t, row.pos.getD "", false, none⟩
      else dir
  | _, _ => dir

/-- ParlayEvaluator._load_players: a no-op when the directory is nonempty
or live data is off; a fetch failure leaves the directory unchanged. -/
def loadPlayers (ds : DataSources) (st : EvalState) : EvalState :=
  if st.playerDir ≠ [] ∨ st.useLiveData = false then st
  else
    match ds.getPlayers with
    | .error _ => st
    | .ok rows => { st with playerDir := rows.foldl insertPlayerRow st.playerDir }

/-- ParlayEvaluator._load_injuries: a no-op when the adjuster exists or
live data is off; a fetch failure installs an adjuster over an empty
injury list. -/
def loadInjuries (ds : DataSources) (st : EvalState) : EvalState :=
  if st.injuryAdjuster ≠ none ∨ st.useLiveData = false then st
  else
    { st with injuryAdjuster := some (match ds.getInjuries with
        | .ok l => l
        | .error _ => []) }

/-- The per-leg body of ParlayEvaluator._attach_players: resolve the leg
player by case-insensitive name lookup; a miss leaves the leg unchanged. -/
def attachPlayer (dir : List (String × Player)) (leg : BetLeg) : BetLeg :=
  match alistLookup leg.metadata "player_name" with
  | some n =>
      if n ≠ "" ∧ leg.player = none then
        match alistLookup dir (lowerStr n) with
        | some pl => { leg with player := some pl }
        | none => leg
      else leg
  | none => leg

/-- ParlayEvaluator._annotate_market_price: appends an informational note on
a successful price fetch; a failure or missing price leaves the leg
unchanged. -/
def annotateMarketPrice (ds : DataSources) (leg : BetLeg) : BetLeg :=
  let market := alistLookup leg.metadata "market_key"
  match ds.bestPrice ((alistLookup leg.metadata "player_name").getD "") market with
  | .error _ => leg
  | .ok none => leg
  | .ok (some bp) =>
      match bp.price with
      | none => leg
      | some pr =>
          { leg with notes := leg.notes ++
              ["Best price available: " ++ bp.bookmaker.getD "unknown" ++ " " ++
               bp.market.getD "market" ++ " at " ++ fmtSigned (pyInt pr)] }

/-- Lines 86-87 of parlay_evaluator.py: default an unset baseline
probability to the odds-implied probability (`none` models the propagated
`ValueError` on zero odds). -/
def stepBaseline (leg : BetLeg) : Option BetLeg :=
  match leg.baseline_probability with
  | some _ => some leg
  | none =>
      match impliedProbability leg.odds_american with
      | none => none
      | some i => some { leg with baseline_probability := some i }

/-- Lines 90-94 of parlay_evaluator.py: run the injury adjuster when one
exists and the leg has a truthy opponent team; on success overwrite both
probability fields with the adjusted value. -/
def stepInjury (adjuster : Option (List Injury)) (opponentTeam : Option String)
    (leg : BetLeg) : BetLeg :=
  match adjuster with
  | none => leg
  | some injuries =>
      if optTruthy opponentTeam then
        let r := adjust_leg injuries leg opponentTeam
        match r.1 with
        | some a => { r.2 with adjusted_probability := some a, baseline_probability := some a }
        | none => r.2
      else leg

/-- Lines 95-96 of parlay_evaluator.py: default an unset adjusted
probability to the current baseline probability. -/
def stepDefaultAdjusted (leg : BetLeg) : BetLeg :=
  match leg.adjusted_probability with
  | some _ => leg
  | none => { leg with adjusted_probability := leg.baseline_probability }

/-- Lines 97-103 of parlay_evaluator.py: with a truthy target and opponent
team and live data on, fetch the head-to-head record (through the memo
cache) and run the historical adjuster; on success overwrite both
probability fields. -/
def stepHistorical (ds : DataSources) (live : Bool) (cache : H2HCache)
    (targetTeam opponentTeam : Option String) (leg : BetLeg) : BetLeg × H2HCache :=
  match targetTeam, opponentTeam with
  | some t, some o =>
      if t ≠ "" ∧ o ≠ "" ∧ live = true then
        let h := getHeadToHead ds cache t o
        let r := hist_adjust_leg h.record leg (some t)
        (match r.1 with
         | some a => { r.2 with adjusted_probability := some a, baseline_probability := some a }
         | none => r.2,
         h.cache)
      else (leg, cache)
  | _, _ => (leg, cache)

/-- Lines 104-105 of parlay_evaluator.py: annotate the market price when
live data is on and the leg names a player. -/
def stepMarket (ds : DataSources) (live : Bool) (leg : BetLeg) : BetLeg :=
  if live = true ∧ optTruthy (alistLookup leg.metadata "player_name") then
    annotateMarketPrice ds leg
  else leg

/-- The body of the per-leg loop of ParlayEvaluator._apply_adjustments
(lines 85-105). -/
def adjustLegPipeline (ds : DataSources) (st : EvalState) (leg : BetLeg) :
    Option (BetLeg × EvalState) :=
  match stepBaseline leg with
  | none => none
  | some leg1 =>
      let opponentTeam := alistLookup leg1.metadata "opponent_team"
      let targetTeam := orElseStr leg1.team (leg1.player.map Player.team)
      let leg2 := stepInjury st.injuryAdjuster opponentTeam leg1
      let leg3 := stepDefaultAdjusted leg2
      let h := stepHistorical ds st.useLiveData st.h2hCache targetTeam opponentTeam leg3
      let leg5 := stepMarket ds st.useLiveData h.1
      some (leg5, { st with h2hCache := h.2 })

/-- The leg loop of ParlayEvaluator._apply_adjustments, threading the
evaluator state through the legs in order. -/
def adjustLegsLoop (ds : DataSources) : EvalState → List BetLeg →
    Option (List BetLeg × EvalState)
  | st, [] => some ([], st)
  | st, leg :: rest =>
      match adjustLegPipeline ds st leg with
      | none => none
      | some (leg', st') =>
          match adjustLegsLoop ds st' rest with
          | none => none
          | some (rest', st'') => some (leg' :: rest', st'')

/-- ParlayEvaluator._apply_adjustments. -/
def applyAdjustments (ds : DataSources) (st : EvalState) (p : Parlay) :
    Option (Parlay × EvalState) :=
  let st1 := loadPlayers ds st
  let legs1 := p.legs.map (attachPlayer st1.playerDir)
  let st2 := loadInjuries ds st1
  match adjustLegsLoop ds st2 legs1 with
  | none => none
  | some (legs2, st3) => some ({ p with legs := legs2 }, st3)

/-- ParlayEvaluator.evaluate: apply the adjustments, then delegate to the
heuristic advisor; the result also carries the mutated parlay and the
final evaluator state. -/
def evaluateParlay (ds : DataSources) (st : EvalState) (p : Parlay) :
    Option (EvaluationResult × Parlay × EvalState) :=
  match applyAdjustments ds st p with
  | none => none
  | some (p', st') =>
      match advisorEvaluate p' with
      | none => none
      | some r => some (r, p', st')

/-- The data sources with every external fetch failing. -/
def allFail : DataSources :=
  ⟨.error (), .error (), fun _ _ => .error (), fun _ _ => .error ()⟩

/-- A fresh live evaluator whose every external fetch fails. -/
def evaluateAllFail (p : Parlay) : Option (EvaluationResult × Parlay × EvalState) :=
  evaluateParlay allFail (initState true) p

lemma clamp_bounds (x : ℚ) : 1/100 ≤ clamp x ∧ clamp x ≤ 99/100 := by
  unfold clamp
  constructor
  · exact le_min (le_trans (by norm_num) (le_max_right x (1/100))) (by norm_num)
  · exact min_le_right _ _

lemma impliedVal_pos {o : ℤ} (ho : o ≠ 0) : 0 < impliedVal o := by
  unfold impliedVal
  rcases lt_or_gt_of_ne ho with hneg | hpos
  · rw [if_neg (by omega)]
    have hc : (o : ℚ) < 0 := by exact_mod_cast hneg
    exact div_pos (by linarith) (by linarith)
  · rw [if_pos hpos]
    have hc : (0 : ℚ) < (o : ℚ) := by exact_mod_cast hpos
    exact div_pos (by norm_num) (by linarith)

lemma impliedVal_lt_one {o : ℤ} (ho : o ≠ 0) : impliedVal o < 1 := by
  unfold impliedVal
  rcases lt_or_gt_of_ne ho with hneg | hpos
  · rw [if_neg (by omega)]
    have hc : (o : ℚ) < 0 := by exact_mod_cast hneg
    rw [div_lt_one (by linarith)]
    linarith
  · rw [if_pos hpos]
    have hc : (0 : ℚ) < (o : ℚ) := by exact_mod_cast hpos
    rw [div_lt_one (by linarith)]
    linarith

/-- Claim C5: for every nonzero American odds `o`, the implied probability is
`100/(o+100)` for positive `o` and `(-o)/((-o)+100)` for negative `o`, lies
strictly between 0 and 1, and takes the values 2/5 at +150 and 2/3
(≈ 0.6667) at -200. -/
theorem implied_probability_spec :
    (∀ o : ℤ, o ≠ 0 →
      impliedProbability o =
        some (if 0 < o then 100 / ((o : ℚ) + 100) else (-(o : ℚ)) / (-(o : ℚ) + 100)) ∧
      ∀ q : ℚ, impliedProbability o = some q → 0 < q ∧ q < 1) ∧
    impliedProbability 150 = some (2/5) ∧
    impliedProbability (-200) = some (2/3) ∧
    |(2/3 : ℚ) - 6667/10000| < 1/10000 := by
  refine ⟨fun o ho => ⟨by simp [impliedProbability, ho, impliedVal], fun q hq => ?_⟩,
    ?_, ?_, by rw [abs_lt]; constructor <;> norm_num⟩
  · have : impliedVal o = q := by
      simpa [impliedProbability, ho] using hq
    rw [← this]
    exact ⟨impliedVal_pos ho, impliedVal_lt_one ho⟩
  · norm_num [impliedProbability, impliedVal]
  · norm_num [impliedProbability, impliedVal]

theorem implied_probability_spec_witness :
    impliedProbability 150 =
      some (if 0 < (150 : ℤ) then 100 / (((150 : ℤ) : ℚ) + 100)
            else (-((150 : ℤ) : ℚ)) / (-((150 : ℤ) : ℚ) + 100)) ∧
    (0 : ℚ) < 2/5 ∧ (2/5 : ℚ) < 1 :=
  ⟨(implied_probability_spec.1 150 (by norm_num)).1,
   (implied_probability_spec.1 150 (by norm_num)).2 (2/5) implied_probability_spec.2.1⟩

/-- Claim C6 counterexample: the round trip does not recover every nonzero
American odds: +50 comes back as -200 (decimal 1.5 falls in the
negative-odds branch), far outside any integer truncation tolerance. -/
theorem odds_roundtrip_cex :
    oddsRoundTrip 50 = some (-200) ∧ 1 < ((-200 : ℤ) - 50).natAbs := by
  constructor
  · show (american_to_decimal 50).bind decimal_to_american = some (-200)
    have h1 : american_to_decimal 50 = some (3/2) := by
      norm_num [american_to_decimal]
    rw [h1]
    show decimal_to_american (3/2) = some (-200)
    have h2 : (-100 : ℚ) / (3/2 - 1) = -200 := by norm_num
    rw [decimal_to_american, if_neg (by norm_num), if_neg (by norm_num), h2]
    norm_num [pyInt]
  · decide

/-- Claim C6 (amended): for standard-range odds (`o ≥ 100` or `o < -100`)
the round trip american → decimal → american recovers `o` within integer
truncation tolerance: the result differs from `o` by at most 1. In this
exact-rational model the round trip lands on `o` itself; the program's
binary floating point can push the value just below an integer before the
`int()` truncation (e.g. CPython maps 101 back to 100), a deviation the
stated tolerance absorbs. Outside that range the claim fails outright:
positive odds below 100 give decimals in (1, 2) and come back as unrelated
negative odds (+50 → -200, the counterexample), odds in (-100, 0) give
decimals ≥ 3 and come back positive (-50 → +200), and -100 gives decimal
2.0 and comes back as +100. -/
theorem odds_roundtrip_within_tolerance (o : ℤ) (h : 100 ≤ o ∨ o < -100) :
    ∃ r : ℤ, oddsRoundTrip o = some r ∧ (r - o).natAbs ≤ 1 := by
  refine ⟨o, ?_, by simp⟩
  rcases h with hpos | hneg
  · have ho : ¬(o = 0) := by omega
    have hQ : (100 : ℚ) ≤ (o : ℚ) := by exact_mod_cast hpos
    show (american_to_decimal o).bind decimal_to_american = some o
    rw [american_to_decimal, if_neg ho, if_pos (by omega : 0 < o)]
    show decimal_to_american ((o : ℚ) / 100 + 1) = some o
    have hd : (1 : ℚ) ≤ (o : ℚ) / 100 := by
      rw [le_div_iff₀ (by norm_num)]
      linarith
    rw [decimal_to_american, if_neg (by linarith), if_pos (by linarith)]
    have harg : ((o : ℚ) / 100 + 1 - 1) * 100 = (o : ℚ) := by
      field_simp
    rw [harg, pyInt, if_pos (by linarith)]
    norm_num
  · have ho : ¬(o = 0) := by omega
    have honeg : ¬(0 < o) := by omega
    have hQ : (100 : ℚ) < -(o : ℚ) := by
      have : ((-100 : ℤ) : ℚ) > (o : ℚ) := by exact_mod_cast hneg
      push_cast at this
      linarith
    have habs : |(o : ℚ)| = -(o : ℚ) := abs_of_neg (by linarith)
    show (american_to_decimal o).bind decimal_to_american = some o
    rw [american_to_decimal, if_neg ho, if_neg honeg, habs]
    show decimal_to_american (100 / -(o : ℚ) + 1) = some o
    have hfrac0 : (0 : ℚ) < 100 / -(o : ℚ) := div_pos (by norm_num) (by linarith)
    have hfrac1 : 100 / -(o : ℚ) < 1 := by
      rw [div_lt_one (by linarith)]
      exact hQ
    rw [decimal_to_american, if_neg (by linarith), if_neg (by linarith)]
    have harg : (-100 : ℚ) / (100 / -(o : ℚ) + 1 - 1) = (o : ℚ) := by
      have hne : (o : ℚ) ≠ 0 := by
        intro hc
        exact ho (by exact_mod_cast hc)
      field_simp
    rw [harg, pyInt, if_neg (not_le.mpr (by linarith : (o : ℚ) < 0))]
    have : ⌊-(o : ℚ)⌋ = -o := by
      rw [← Int.cast_neg, Int.floor_intCast]
    rw [this]
    norm_num

theorem odds_roundtrip_within_tolerance_witness :
    ∃ r : ℤ, oddsRoundTrip 150 = some r ∧ (r - 150).natAbs ≤ 1 :=
  odds_roundtrip_within_tolerance 150 (Or.inl (by norm_num))

lemma adjust_leg_odds (injuries : List Injury) (leg : BetLeg) (opp : Option String) :
    ((adjust_leg injuries leg opp).2).odds_american = leg.odds_american := by
  unfold adjust_leg
  cases h : leg.baseline_probability
  · rfl
  · simp only []
    split <;> rfl

lemma hist_adjust_leg_odds (record : List (String × ℤ)) (leg : BetLeg)
    (tt : Option String) :
    ((hist_adjust_leg record leg tt).2).odds_american = leg.odds_american := by
  unfold hist_adjust_leg
  cases leg.baseline_probability
  · rfl
  · cases tt
    · rfl
    · simp only []
      split
      · rfl
      · cases alistLookup record _
        · rfl
        · simp only []
          split
          · rfl
          · split <;> rfl

lemma annotateMarketPrice_odds (ds : DataSources) (leg : BetLeg) :
    (annotateMarketPrice ds leg).odds_american = leg.odds_american := by
  unfold annotateMarketPrice
  cases h : ds.bestPrice ((alistLookup leg.metadata "player_name").getD "")
      (alistLookup leg.metadata "market_key") with
  | error e => simp [h]
  | ok v =>
      cases v with
      | none => simp [h]
      | some bp => cases hp : bp.price <;> simp [h, hp]

lemma stepBaseline_odds {leg leg1 : BetLeg} (h : stepBaseline leg = some leg1) :
    leg1.odds_american = leg.odds_american := by
  unfold stepBaseline at h
  cases hb : leg.baseline_probability <;> rw [hb] at h
  · cases hi : impliedProbability leg.odds_american <;> rw [hi] at h
    · exact absurd h (by simp)
    · cases h
      rfl
  · cases h
    rfl

lemma stepInjury_odds (adjuster : Option (List Injury)) (opp : Option String)
    (leg : BetLeg) : (stepInjury adjuster opp leg).odds_american = leg.odds_american := by
  unfold stepInjury
  cases adjuster with
  | none => rfl
  | some injs =>
      simp only []
      split
      · cases h : (adjust_leg injs leg opp).1
        · simpa using adjust_leg_odds injs leg opp
        · have h2 := adjust_leg_odds injs leg opp
          simp only []
          exact h2
      · rfl

lemma stepDefaultAdjusted_odds (leg : BetLeg) :
    (stepDefaultAdjusted leg).odds_american = leg.odds_american := by
  unfold stepDefaultAdjusted
  cases leg.adjusted_probability <;> rfl

lemma stepHistorical_odds (ds : DataSources) (live : Bool) (cache : H2HCache)
    (tt opp : Option String) (leg : BetLeg) :
    ((stepHistorical ds live cache tt opp leg).1).odds_american = leg.odds_american := by
  unfold stepHistorical
  cases tt <;> cases opp
  · rfl
  · rfl
  · rfl
  · simp only []
    split
    · cases h : (hist_adjust_leg _ leg _).1
      · simpa using hist_adjust_leg_odds _ leg _
      · simpa using hist_adjust_leg_odds _ leg _
    · rfl

lemma stepMarket_odds (ds : DataSources) (live : Bool) (leg : BetLeg) :
    (stepMarket ds live leg).odds_american = leg.odds_american := by
  unfold stepMarket
  split
  · exact annotateMarketPrice_odds ds leg
  · rfl

lemma adjustLegPipeline_odds {ds : DataSources} {st : EvalState} {leg leg' : BetLeg}
    {st' : EvalState} (h : adjustLegPipeline ds st leg = some (leg', st')) :
    leg'.odds_american = leg.odds_american := by
  unfold adjustLegPipeline at h
  cases hb : stepBaseline leg <;> rw [hb] at h
  · exact absurd h (by simp)
  · simp only [] at h
    cases h
    rw [stepMarket_odds, stepHistorical_odds, stepDefaultAdjusted_odds, stepInjury_odds]
    exact stepBaseline_odds hb

lemma adjustLegsLoop_odds {ds : DataSources} :
    ∀ {st : EvalState} {legs legs' : List BetLeg} {st' : EvalState},
      adjustLegsLoop ds st legs = some (legs', st') →
      legs'.map (fun l => l.odds_american) = legs.map (fun l => l.odds_american) := by
  intro st legs
  induction legs generalizing st with
  | nil =>
      intro legs' st' h
      cases h
      rfl
  | cons leg rest ih =>
      intro legs' st' h
      unfold adjustLegsLoop at h
      cases h1 : adjustLegPipeline ds st leg <;> rw [h1] at h
      · exact absurd h (by simp)
      · rename_i v
        obtain ⟨leg1, st1⟩ := v
        simp only [] at h
        cases h2 : adjustLegsLoop ds st1 rest <;> rw [h2] at h
        · exact absurd h (by simp)
        · rename_i w
          obtain ⟨rest', st2⟩ := w
          simp only [] at h
          cases h
          simp only [List.map_cons]
          rw [adjustLegPipeline_odds h1, ih h2]

lemma attachPlayer_odds (dir : List (String × Player)) (leg : BetLeg) :
    (attachPlayer dir leg).odds_american = leg.odds_american := by
  unfold attachPlayer
  cases alistLookup leg.metadata "player_name"
  · rfl
  · simp only []
    split
    · cases alistLookup dir _ <;> rfl
    · rfl

lemma applyAdjustments_odds {ds : DataSources} {st : EvalState} {p p' : Parlay}
    {st' : EvalState} (h : applyAdjustments ds st p = some (p', st')) :
    p'.legs.map (fun l => l.odds_american) = p.legs.map (fun l => l.odds_american) := by
  simp only [applyAdjustments] at h
  cases h1 : adjustLegsLoop ds (loadInjuries ds (loadPlayers ds st))
      (p.legs.map (attachPlayer (loadPlayers ds st).playerDir)) <;> rw [h1] at h
  · exact absurd h (by simp)
  · rename_i v
    obtain ⟨legs2, st3⟩ := v
    simp only [] at h
    cases h
    rw [adjustLegsLoop_odds h1, List.map_map]
    simp [Function.comp, attachPlayer_odds]

lemma combinedDecimalOddsAux_zero {legs : List BetLeg}
    (h : (0 : ℤ) ∈ legs.map (fun l => l.odds_american)) (acc : ℚ) :
    combinedDecimalOddsAux acc legs = none := by
  induction legs generalizing acc with
  | nil => simp at h
  | cons leg rest ih =>
      simp only [List.map_cons, List.mem_cons] at h
      unfold combinedDecimalOddsAux
      rcases h with h0 | hrest
      · rw [impliedProbability, if_pos h0.symm]
      · cases hi : impliedProbability leg.odds_american
        · rfl
        · simp only []
          split
          · rfl
          · exact ih hrest _

lemma advisorEvaluate_zero {p : Parlay}
    (h : (0 : ℤ) ∈ p.legs.map (fun l => l.odds_american)) :
    advisorEvaluate p = none := by
  unfold advisorEvaluate combinedDecimalOdds
  rw [combinedDecimalOddsAux_zero h]

/-- Claim C7: the odds conversions fail exactly on zero American odds /
decimal odds ≤ 1, and such a failure always surfaces: a parlay containing a
zero-odds leg makes both the scoring engine and the whole orchestrated
evaluation fail instead of producing a result. -/
theorem invalid_odds_spec :
    (∀ o : ℤ, american_to_decimal o = none ↔ o = 0) ∧
    (∀ o : ℤ, impliedProbability o = none ↔ o = 0) ∧
    (∀ d : ℚ, decimal_to_american d = none ↔ d ≤ 1) ∧
    (∀ p : Parlay, ∀ leg ∈ p.legs, leg.odds_american = 0 →
       advisorEvaluate p = none) ∧
    (∀ (ds : DataSources) (st : EvalState) (p : Parlay), ∀ leg ∈ p.legs,
       leg.odds_american = 0 → evaluateParlay ds st p = none) := by
  refine ⟨?_, ?_, ?_, ?_, ?_⟩
  · intro o
    unfold american_to_decimal
    split
    · simpa
    · split <;> simp_all
  · intro o
    unfold impliedProbability
    split <;> simp_all
  · intro d
    unfold decimal_to_american
    split
    · simpa
    · split <;> simp_all
  · intro p leg hmem h0
    exact advisorEvaluate_zero (by rw [List.mem_map]; exact ⟨leg, hmem, h0⟩)
  · intro ds st p leg hmem h0
    unfold evaluateParlay
    cases h1 : applyAdjustments ds st p
    · rfl
    · rename_i v
      obtain ⟨p', st'⟩ := v
      simp only []
      have hz : (0 : ℤ) ∈ p'.legs.map (fun l => l.odds_american) := by
        rw [applyAdjustments_odds h1, List.mem_map]
        exact ⟨leg, hmem, h0⟩
      rw [advisorEvaluate_zero hz]

/-- A leg with zero American odds, for exercising the failure paths. -/
def zeroOddsLeg : BetLeg :=
  { leg_id := "z", description := "zero", odds_american := 0, market_type := "custom" }

/-- A one-leg parlay with zero American odds. -/
def zeroOddsParlay : Parlay := ⟨[zeroOddsLeg], 1⟩

theorem invalid_odds_spec_witness :
    american_to_decimal 0 = none ∧ impliedProbability 0 = none ∧
    decimal_to_american 1 = none ∧ advisorEvaluate zeroOddsParlay = none ∧
    evaluateParlay allFail (initState true) zeroOddsParlay = none := by
  have h := invalid_odds_spec
  exact ⟨(h.1 0).mpr rfl, (h.2.1 0).mpr rfl, (h.2.2.1 1).mpr (by norm_num),
    h.2.2.2.1 zeroOddsParlay zeroOddsLeg (List.mem_singleton.mpr rfl) rfl,
    h.2.2.2.2 allFail (initState true) zeroOddsParlay zeroOddsLeg
      (List.mem_singleton.mpr rfl) rfl⟩

lemma foldl_fixed {α β : Type} {f : α → β → α} (hf : ∀ a b, f a b = a) :
    ∀ (l : List β) (a : α), l.foldl f a = a := by
  intro l
  induction l with
  | nil => intro a; rfl
  | cons x xs ih => intro a; rw [List.foldl_cons, hf, ih]

lemma injuryStep_no_player (opp : Option String) (acc : ℚ × List String)
    (i : Injury) : injuryStep none opp acc i = acc := by
  unfold injuryStep
  split
  · rfl
  · split <;> rfl

/-- Claim C10: with no resolved player on the leg, the injury adjuster is a
complete no-op for any injury list and opponent team: it returns `None` and
leaves the leg (notes included) unchanged. -/
theorem injury_adjuster_no_player_noop (injuries : List Injury) (leg : BetLeg)
    (opp : Option String) (b : ℚ)
    (hpl : leg.player = none) (hb : leg.baseline_probability = some b) :
    adjust_leg injuries leg opp = (none, leg) := by
  unfold adjust_leg
  rw [hb]
  simp only [hpl]
  rw [foldl_fixed (injuryStep_no_player opp) injuries]
  rw [if_neg (by norm_num [max_eq_right (by norm_num : (5 : ℚ)/100 ≤ 1)])]

theorem injury_adjuster_no_player_noop_witness :
    adjust_leg [⟨some "DEN", some "X", some "CB", some "Out"⟩]
      { leg_id := "a", description := "d", odds_american := 100,
        market_type := "m", baseline_probability := some (1/2) }
      (some "DEN") =
    (none,
     { leg_id := "a", description := "d", odds_american := 100,
       market_type := "m", baseline_probability := some (1/2) }) :=
  injury_adjuster_no_player_noop _ _ _ _ rfl rfl

/-- Claim C8 (amended): both adjusters clamp every probability they return
to [0.01, 0.99]; the orchestrator's defaulting of an unset baseline to the
raw odds-implied probability is however not clamped (see the
counterexample). -/
theorem adjusters_clamp_outputs :
    (∀ (injuries : List Injury) (leg : BetLeg) (opp : Option String) (q : ℚ),
       (adjust_leg injuries leg opp).1 = some q → 1/100 ≤ q ∧ q ≤ 99/100) ∧
    (∀ (record : List (String × ℤ)) (leg : BetLeg) (tt : Option String) (q : ℚ),
       (hist_adjust_leg record leg tt).1 = some q → 1/100 ≤ q ∧ q ≤ 99/100) := by
  constructor
  · intro injuries leg opp q h
    unfold adjust_leg at h
    cases hb : leg.baseline_probability <;> rw [hb] at h
    · exact absurd h (by simp)
    · simp only [] at h
      split at h
      · cases h
        exact clamp_bounds _
      · exact absurd h (by simp)
  · intro record leg tt q h
    unfold hist_adjust_leg at h
    cases hb : leg.baseline_probability <;> rw [hb] at h
    · exact absurd h (by simp)
    · cases tt with
      | none => exact absurd h (by simp)
      | some t =>
          simp only [] at h
          split at h
          · exact absurd h (by simp)
          · cases hl : alistLookup record t <;> rw [hl] at h
            · exact absurd h (by simp)
            · simp only [] at h
              split at h
              · exact absurd h (by simp)
              · split at h
                · exact absurd h (by simp)
                · cases h
                  exact clamp_bounds _

theorem adjusters_clamp_outputs_witness :
    (1 : ℚ)/100 ≤ 23/40 ∧ (23/40 : ℚ) ≤ 99/100 := by
  have h2 : (hist_adjust_leg [("KC", (10 : ℤ)), ("DEN", 0)]
      { leg_id := "a", description := "d", odds_american := 100,
        market_type := "m", baseline_probability := some (1/2) }
      (some "KC")).1 = some (23/40) := by
    simp only [hist_adjust_leg, alistLookup, sumVals]
    norm_num [clamp]
    rw [if_neg (by decide : ¬("KC" = ""))]
    rw [if_neg (by rw [abs_of_pos (by norm_num : (0 : ℚ) < 3/20)]; norm_num)]
  exact adjusters_clamp_outputs.2 _ _ _ _ h2

/-- A one-leg parlay with very long odds (+10000) and no preset
probabilities. -/
def longOddsParlay : Parlay :=
  ⟨[{ leg_id := "l1", description := "long shot", odds_american := 10000,
      market_type := "custom" }], 1⟩

/-- Claim C8 counterexample: running the orchestrator (all fetches failing)
on a +10000 leg defaults its baseline probability to the raw implied
probability 1/101, which lies below the claimed lower clamp 0.01 — the
[0.01, 0.99] invariant is not preserved by the orchestrator's defaulting. -/
theorem pipeline_baseline_below_clamp_cex :
    (applyAdjustments allFail (initState true) longOddsParlay).map
      (fun x => x.1.legs.map (fun l => l.baseline_probability)) =
        some [some (1/101)] ∧
    ¬((1 : ℚ)/100 ≤ 1/101) := by
  constructor
  · simp [longOddsParlay, applyAdjustments, loadPlayers, loadInjuries, initState,
      allFail, attachPlayer, alistLookup, adjustLegsLoop, adjustLegPipeline,
      stepBaseline, impliedProbability, impliedVal, stepInjury,
      stepDefaultAdjusted, stepHistorical, orElseStr, stepMarket, optTruthy]
    norm_num
  · norm_num

/-- Claim C4: the historical adjuster turns a 10-0 head-to-head record into
the multiplier 1.15 and returns `baseline * 1.15` clamped to [0.01, 0.99];
any record whose multiplier is within 0.01 of 1.0 (such as a 5-5 split)
yields `None` with the leg unchanged and no notes appended. -/
theorem historical_adjuster_spec :
    (∀ (leg : BetLeg) (b : ℚ) (t opp : String),
       leg.baseline_probability = some b → t ≠ "" → t ≠ opp →
       (hist_adjust_leg [(t, 10), (opp, 0)] leg (some t)).1 =
         some (clamp (b * (115/100)))) ∧
    (∀ (record : List (String × ℤ)) (leg : BetLeg) (b : ℚ) (t : String) (w : ℤ),
       leg.baseline_probability = some b → t ≠ "" →
       alistLookup record t = some w → sumVals record ≠ 0 →
       |1 + ((w : ℚ) / (sumVals record : ℚ) - 1/2) * (3/10) - 1| < 1/100 →
       hist_adjust_leg record leg (some t) = (none, leg)) ∧
    (∀ (leg : BetLeg) (b : ℚ) (t opp : String),
       leg.baseline_probability = some b → t ≠ "" → t ≠ opp →
       hist_adjust_leg [(t, 5), (opp, 5)] leg (some t) = (none, leg)) := by
  refine ⟨?_, ?_, ?_⟩
  · intro leg b t opp hb ht _
    unfold hist_adjust_leg
    rw [hb]
    simp only [alistLookup, if_pos rfl, sumVals]
    rw [if_neg ht]
    norm_num
    rw [if_neg (by rw [abs_of_pos (by norm_num : (0 : ℚ) < 3/20)]; norm_num)]
  · intro record leg b t w hb ht hl htot hdead
    unfold hist_adjust_leg
    rw [hb]
    simp only [hl]
    rw [if_neg ht]
    have htotq : ¬(sumVals record = 0) := htot
    rw [if_neg htotq]
    rw [if_pos]
    simpa using hdead
  · intro leg b t opp hb ht _
    unfold hist_adjust_leg
    rw [hb]
    simp only [alistLookup, if_pos rfl, sumVals]
    rw [if_neg ht]
    norm_num

theorem historical_adjuster_spec_witness :
    (hist_adjust_leg [("KC", 10), ("DEN", 0)]
       { leg_id := "a", description := "d", odds_american := 100,
         market_type := "m", baseline_probability := some (1/2) }
       (some "KC")).1 = some (clamp ((1/2) * (115/100))) ∧
    hist_adjust_leg [("KC", 5), ("DEN", 5)]
       { leg_id := "a", description := "d", odds_american := 100,
         market_type := "m", baseline_probability := some (1/2) }
       (some "KC") =
      (none,
       { leg_id := "a", description := "d", odds_american := 100,
         market_type := "m", baseline_probability := some (1/2) }) :=
  ⟨historical_adjuster_spec.1 _ (1/2) "KC" "DEN" rfl (by decide) (by decide),
   historical_adjuster_spec.2.2 _ (1/2) "KC" "DEN" rfl (by decide) (by decide)⟩

lemma fmt2_multiplier_105 : fmt2 (1 + 5/100) = "1.05" := by
  unfold fmt2
  norm_num
  rfl

/-- Claim C3: a single "Out" injury record at a key defensive position on
the opponent team, with the leg player on a different team, makes the
injury adjuster return `baseline * 1.05` clamped to [0.01, 0.99] and append
exactly two notes, the qualitative defender note followed by
"Injury multiplier applied: 1.05". -/
theorem injury_single_out_defender_spec (leg : BetLeg) (b : ℚ) (pl : Player)
    (opp nm ps : String)
    (hb : leg.baseline_probability = some b) (hpl : leg.player = some pl)
    (hteam : pl.team ≠ opp) (hpos : ps ∈ KEY_DEFENSIVE_POSITIONS) :
    adjust_leg [⟨some opp, some nm, some ps, some "Out"⟩] leg (some opp) =
      (some (clamp (b * (105/100))),
       { leg with notes := leg.notes ++
            ["Opponent missing key defender " ++ nm ++ " (" ++ ps ++ ")",
             "Injury multiplier applied: 1.05"] }) := by
  have hstep : injuryStep leg.player (some opp) (1, [])
      ⟨some opp, some nm, some ps, some "Out"⟩ =
      (1 + 5/100, ["Opponent missing key defender " ++ nm ++ " (" ++ ps ++ ")"]) := by
    rw [hpl]
    unfold injuryStep
    rw [if_neg (by simp)]
    rw [if_pos (Or.inl rfl)]
    simp only []
    rw [if_pos ⟨by simpa [isKeyDefender] using hpos,
        by simpa using fun hc => hteam (by simpa using hc.symm)⟩]
    simp [defenderNote, pyStr]
  unfold adjust_leg
  rw [hb]
  simp only [List.foldl_cons, List.foldl_nil, hstep]
  rw [max_eq_right (by norm_num : (5 : ℚ)/100 ≤ 1 + 5/100)]
  rw [if_pos (by rw [show (1 : ℚ) + 5/100 - 1 = 5/100 by norm_num,
        abs_of_pos (by norm_num : (0 : ℚ) < 5/100)]; norm_num)]
  rw [fmt2_multiplier_105]
  rw [show (1 : ℚ) + 5/100 = 105/100 by norm_num, List.append_assoc]
  rfl

theorem injury_single_out_defender_spec_witness :
    adjust_leg [⟨some "DEN", some "Pat S", some "CB", some "Out"⟩]
      { leg_id := "a", description := "d", odds_american := 100, market_type := "m",
        player := some ⟨"p1", "QB Guy", "KC", "QB", false, none⟩,
        baseline_probability := some (1/2) }
      (some "DEN") =
      (some (clamp ((1/2) * (105/100))),
       { leg_id := "a", description := "d", odds_american := 100, market_type := "m",
         player := some ⟨"p1", "QB Guy", "KC", "QB", false, none⟩,
         baseline_probability := some (1/2),
         notes := ["Opponent missing key defender Pat S (CB)",
                   "Injury multiplier applied: 1.05"] }) :=
  injury_single_out_defender_spec _ (1/2) ⟨"p1", "QB Guy", "KC", "QB", false, none⟩
    "DEN" "Pat S" "CB" rfl rfl (by decide) (by decide)

lemma evOr0_pos_iff (ev : Option ℚ) : 0 < evOr0 ev ↔ 0 < ev.getD 0 := by
  cases ev with
  | none => exact Iff.rfl
  | some v =>
      unfold evOr0
      simp only [Option.getD]
      split
      · rename_i h
        rw [h]
      · exact Iff.rfl

/-- Claim C2: the scoring engine classifies every evaluated parlay's verdict
from its overall score and expected value by fixed thresholds in priority
order (Strong Value when overall > 0.15 with positive expected value, else
Moderate Value when overall > 0.05, else High Risk when overall < -0.1,
else Neutral), with the stated boundary instances at 0.16, 0.10, -0.2
and 0.0. -/
theorem advisor_verdict_thresholds :
    (∀ (p : Parlay) (r : EvaluationResult), advisorEvaluate p = some r →
       r.verdict = classifyVerdict r.overall_value_score r.expected_value) ∧
    (∀ (o : ℚ) (ev : Option ℚ), 15/100 < o → 0 < ev.getD 0 →
       classifyVerdict o ev = "Strong Value") ∧
    (∀ (o : ℚ) (ev : Option ℚ), ¬(15/100 < o ∧ 0 < ev.getD 0) → 5/100 < o →
       classifyVerdict o ev = "Moderate Value") ∧
    (∀ (o : ℚ) (ev : Option ℚ), ¬(15/100 < o ∧ 0 < ev.getD 0) → ¬(5/100 < o) →
       o < -(1/10) → classifyVerdict o ev = "High Risk") ∧
    (∀ (o : ℚ) (ev : Option ℚ), ¬(15/100 < o ∧ 0 < ev.getD 0) → ¬(5/100 < o) →
       ¬(o < -(1/10)) → classifyVerdict o ev = "Neutral") ∧
    (∀ ev : ℚ, 0 < ev → classifyVerdict (16/100) (some ev) = "Strong Value") ∧
    (∀ ev : Option ℚ, classifyVerdict (1/10) ev = "Moderate Value") ∧
    (∀ ev : Option ℚ, classifyVerdict (-(2/10)) ev = "High Risk") ∧
    (∀ ev : Option ℚ, classifyVerdict 0 ev = "Neutral") := by
  refine ⟨?_, ?_, ?_, ?_, ?_, ?_, ?_, ?_, ?_⟩
  · intro p r h
    simp only [advisorEvaluate] at h
    cases h1 : combinedDecimalOdds p <;> rw [h1] at h
    · exact absurd h (by simp)
    · cases h2 : scoreLegsAux p.legs <;> rw [h2] at h
      · exact absurd h (by simp)
      · rename_i v
        obtain ⟨ls, vs, ra⟩ := v
        simp only [] at h
        cases h
        rfl
  · intro o ev h1 h2
    unfold classifyVerdict
    rw [if_pos ⟨h1, (evOr0_pos_iff ev).mpr h2⟩]
  · intro o ev h1 h2
    unfold classifyVerdict
    rw [if_neg (fun hc => h1 ⟨hc.1, (evOr0_pos_iff ev).mp hc.2⟩), if_pos h2]
  · intro o ev h1 h2 h3
    unfold classifyVerdict
    rw [if_neg (fun hc => h1 ⟨hc.1, (evOr0_pos_iff ev).mp hc.2⟩), if_neg h2, if_pos h3]
  · intro o ev h1 h2 h3
    unfold classifyVerdict
    rw [if_neg (fun hc => h1 ⟨hc.1, (evOr0_pos_iff ev).mp hc.2⟩), if_neg h2, if_neg h3]
  · intro ev h
    unfold classifyVerdict
    rw [if_pos ⟨by norm_num, (evOr0_pos_iff (some ev)).mpr (by simpa using h)⟩]
  · intro ev
    unfold classifyVerdict
    rw [if_neg (fun hc => by norm_num at hc),
      if_pos (by norm_num)]
  · intro ev
    unfold classifyVerdict
    rw [if_neg (fun hc => by norm_num at hc),
      if_neg (by norm_num), if_pos (by norm_num)]
  · intro ev
    unfold classifyVerdict
    rw [if_neg (fun hc => by norm_num at hc),
      if_neg (by norm_num), if_neg (by norm_num)]

/-- A minimal even-odds parlay with no adjustments, scoring Neutral. -/
def neutralParlay : Parlay :=
  ⟨[{ leg_id := "a", description := "d", odds_american := 100, market_type := "m" }], 1⟩

/-- The evaluation result of `neutralParlay`. -/
def neutralResult : EvaluationResult :=
  ⟨0, "Neutral", none, none, ["Leg a d: adjusted probability 50.00%"],
   [("a", ⟨0, 0, 0, 0, 1/2, 1/2⟩)]⟩

theorem advisor_verdict_thresholds_witness :
    neutralResult.verdict =
      classifyVerdict neutralResult.overall_value_score neutralResult.expected_value ∧
    classifyVerdict (16/100) (some 1) = "Strong Value" ∧
    classifyVerdict (1/10) none = "Moderate Value" ∧
    classifyVerdict (-(2/10)) none = "High Risk" ∧
    classifyVerdict 0 none = "Neutral" := by
  have h := advisor_verdict_thresholds
  have h0 : advisorEvaluate neutralParlay = some neutralResult := by
    simp [advisorEvaluate, neutralParlay, neutralResult, combinedProbability,
      combinedProbabilityAux, combinedDecimalOdds, combinedDecimalOddsAux,
      impliedProbability, impliedVal, score_leg, scoreLegsAux, pyOrQ, noteSignals,
      valueScore, legLine, fmtPercent, classifyVerdict, evOr0, fmt2]
    norm_num
    rfl
  exact ⟨h.1 neutralParlay neutralResult h0, h.2.2.2.2.2.1 1 one_pos,
    h.2.2.2.2.2.2.1 none, h.2.2.2.2.2.2.2.1 none, h.2.2.2.2.2.2.2.2 none⟩

lemma alistLookup_append_of_none {α β : Type} [DecidableEq α] {l : List (α × β)}
    {k : α} (h : alistLookup l k = none) (k' : α) (v : β) :
    alistLookup (l ++ [(k', v)]) k = if k' = k then some v else none := by
  induction l with
  | nil => rfl
  | cons kv rest ih =>
      obtain ⟨k0, v0⟩ := kv
      simp only [alistLookup, List.cons_append] at h ⊢
      split at h
      · exact absurd h (by simp)
      · rename_i hne
        rw [if_neg hne]
        exact ih h

/-- Claim C9 (amended): the lru_cache memo on `_get_head_to_head` is keyed
by the ordered argument pair: a repeated lookup for the same ordered pair
`(a, b)` returns the cached record without a second fetch, but the reversed
pair `(b, a)` misses the cache and performs a fresh fetch. -/
theorem h2h_cache_ordered_pair_memoized :
    (∀ (ds : DataSources) (cache : H2HCache) (a b : String),
       getHeadToHead ds (getHeadToHead ds cache a b).cache a b =
         ⟨(getHeadToHead ds cache a b).record,
          (getHeadToHead ds cache a b).cache, false⟩) ∧
    (∀ (ds : DataSources) (cache : H2HCache) (a b : String), a ≠ b →
       alistLookup cache (b, a) = none →
       (getHeadToHead ds (getHeadToHead ds cache a b).cache b a).fetched = true) := by
  constructor
  · intro ds cache a b
    unfold getHeadToHead
    cases h : alistLookup cache (a, b) with
    | some v => simp [h]
    | none =>
        simp only [h]
        rw [alistLookup_append_of_none h, if_pos rfl]
  · intro ds cache a b hab hnone
    unfold getHeadToHead
    cases h : alistLookup cache (a, b) with
    | some v => simp [h, hnone]
    | none =>
        simp only [h]
        rw [alistLookup_append_of_none hnone,
          if_neg (fun hc => hab (congrArg Prod.fst hc))]

/-- Data sources whose head-to-head fetch succeeds (used to exercise the
memo cache). -/
def h2hOkSources : DataSources :=
  ⟨.error (), .error (), fun a b => .ok [(a, 3), (b, 2)], fun _ _ => .error ()⟩

/-- Claim C9 counterexample: after a head-to-head lookup for ("KC", "DEN"),
the lookup for the reversed pair ("DEN", "KC") in the same run performs a
second fetch — the cache key is the ordered pair, not the unordered one. -/
theorem h2h_reversed_pair_refetches_cex :
    (getHeadToHead h2hOkSources
       (getHeadToHead h2hOkSources [] "KC" "DEN").cache "DEN" "KC").fetched = true := by
  decide

theorem h2h_cache_ordered_pair_memoized_witness :
    getHeadToHead h2hOkSources
        (getHeadToHead h2hOkSources [] "KC" "DEN").cache "KC" "DEN" =
      ⟨(getHeadToHead h2hOkSources [] "KC" "DEN").record,
       (getHeadToHead h2hOkSources [] "KC" "DEN").cache, false⟩ ∧
    (getHeadToHead h2hOkSources
        (getHeadToHead h2hOkSources [] "A" "B").cache "B" "A").fetched = true :=
  ⟨h2h_cache_ordered_pair_memoized.1 h2hOkSources [] "KC" "DEN",
   h2h_cache_ordered_pair_memoized.2 h2hOkSources [] "A" "B" (by decide) rfl⟩


/-- The baseline probability after the no-data defaulting: keep a set
baseline, else take the odds-implied probability. -/
def legBaselineNoData (leg : BetLeg) : Option ℚ :=
  match leg.baseline_probability with
  | some x => some x
  | none => impliedProbability leg.odds_american

/-- The per-leg effect of one evaluation pass in which every external fetch
fails: an unset baseline defaults to the odds-implied probability and an
unset adjusted probability defaults to the (possibly just defaulted)
baseline; nothing else changes. -/
def legAfterNoData (leg : BetLeg) : BetLeg :=
  { leg with
    baseline_probability := legBaselineNoData leg,
    adjusted_probability :=
      (match leg.adjusted_probability with
       | some a => some a
       | none => legBaselineNoData leg) }

/-- Every record in the cache sums to zero wins (the failure default). -/
def CacheZero (cache : H2HCache) : Prop := ∀ kv ∈ cache, sumVals kv.2 = 0

lemma adjust_leg_empty (leg : BetLeg) (opp : Option String) :
    adjust_leg [] leg opp = (none, leg) := by
  unfold adjust_leg
  cases leg.baseline_probability
  · rfl
  · simp only [List.foldl_nil]
    rw [show max ((5 : ℚ)/100) (1, ([] : List String)).1 = 1 from
      max_eq_right (by norm_num)]
    rw [if_neg (by norm_num)]

lemma stepInjury_empty (opp : Option String) (leg : BetLeg) :
    stepInjury (some []) opp leg = leg := by
  simp only [stepInjury, adjust_leg_empty]
  split <;> rfl

lemma hist_adjust_zero_total {record : List (String × ℤ)} (h : sumVals record = 0)
    (leg : BetLeg) (tt : Option String) :
    hist_adjust_leg record leg tt = (none, leg) := by
  unfold hist_adjust_leg
  cases leg.baseline_probability
  · rfl
  · cases tt
    · rfl
    · simp only []
      split
      · rfl
      · cases alistLookup record _ <;> rfl

lemma alistLookup_mem {α β : Type} [DecidableEq α] {l : List (α × β)} {k : α}
    {v : β} (h : alistLookup l k = some v) : (k, v) ∈ l := by
  induction l with
  | nil => exact absurd h (by simp [alistLookup])
  | cons kv rest ih =>
      obtain ⟨k0, v0⟩ := kv
      simp only [alistLookup] at h
      split at h
      · rename_i heq
        cases h
        subst heq
        exact List.mem_cons_self _ _
      · exact List.mem_cons_of_mem _ (ih h)

lemma getHeadToHead_allFail_zero {cache : H2HCache} (hc : CacheZero cache)
    (a b : String) :
    sumVals (getHeadToHead allFail cache a b).record = 0 ∧
    CacheZero (getHeadToHead allFail cache a b).cache := by
  unfold getHeadToHead
  cases h : alistLookup cache (a, b) with
  | some v => exact ⟨hc _ (alistLookup_mem h), hc⟩
  | none =>
      constructor
      · show sumVals [(a, 0), (b, 0)] = 0
        simp [sumVals]
      · intro kv hkv
        rcases List.mem_append.mp hkv with hl | hr
        · exact hc _ hl
        · rw [List.mem_singleton.mp hr]
          show sumVals [(a, 0), (b, 0)] = 0
          simp [sumVals]

lemma stepHistorical_allFail (cache : H2HCache) (live : Bool)
    (hc : CacheZero cache) (tt opp : Option String) (leg : BetLeg) :
    (stepHistorical allFail live cache tt opp leg).1 = leg ∧
    CacheZero (stepHistorical allFail live cache tt opp leg).2 := by
  unfold stepHistorical
  cases tt <;> cases opp
  · exact ⟨rfl, hc⟩
  · exact ⟨rfl, hc⟩
  · exact ⟨rfl, hc⟩
  · rename_i t o
    simp only []
    split
    · have hz := getHeadToHead_allFail_zero hc t o
      rw [hist_adjust_zero_total hz.1]
      exact ⟨rfl, hz.2⟩
    · exact ⟨rfl, hc⟩

lemma stepMarket_allFail (live : Bool) (leg : BetLeg) :
    stepMarket allFail live leg = leg := by
  unfold stepMarket
  split
  · unfold annotateMarketPrice
    rfl
  · rfl

lemma stepBaseline_noData {leg : BetLeg} (h0 : leg.odds_american ≠ 0) :
    stepBaseline leg =
      some { leg with baseline_probability := legBaselineNoData leg } := by
  cases hb : leg.baseline_probability
  · simp only [stepBaseline, legBaselineNoData, hb, impliedProbability, if_neg h0]
  · simp only [stepBaseline, legBaselineNoData, hb]
    rw [← hb]

lemma stepDefaultAdjusted_noData (leg : BetLeg) :
    stepDefaultAdjusted { leg with baseline_probability := legBaselineNoData leg } =
      legAfterNoData leg := by
  cases ha : leg.adjusted_probability <;>
    simp only [stepDefaultAdjusted, legAfterNoData, ha]

lemma adjustLegPipeline_allFail (st : EvalState) (leg : BetLeg)
    (hinj : st.injuryAdjuster = some []) (hc : CacheZero st.h2hCache)
    (h0 : leg.odds_american ≠ 0) :
    ∃ c, adjustLegPipeline allFail st leg =
        some (legAfterNoData leg, { st with h2hCache := c }) ∧ CacheZero c := by
  simp only [adjustLegPipeline, stepBaseline_noData h0, hinj, stepInjury_empty,
    stepDefaultAdjusted_noData]
  have hh := stepHistorical_allFail st.h2hCache st.useLiveData hc
    (orElseStr { leg with baseline_probability := legBaselineNoData leg }.team
      ({ leg with baseline_probability := legBaselineNoData leg }.player.map Player.team))
    (alistLookup { leg with baseline_probability := legBaselineNoData leg }.metadata
      "opponent_team")
    (legAfterNoData leg)
  refine ⟨_, ?_, hh.2⟩
  rw [hh.1, stepMarket_allFail]

lemma adjustLegsLoop_allFail :
    ∀ (st : EvalState) (legs : List BetLeg),
      st.injuryAdjuster = some [] → CacheZero st.h2hCache →
      (∀ l ∈ legs, l.odds_american ≠ 0) →
      ∃ st', adjustLegsLoop allFail st legs =
          some (legs.map legAfterNoData, st') ∧
        st'.injuryAdjuster = some [] ∧ CacheZero st'.h2hCache := by
  intro st legs
  induction legs generalizing st with
  | nil => intro h2 h3 _; exact ⟨st, rfl, h2, h3⟩
  | cons leg rest ih =>
      intro h2 h3 h4
      obtain ⟨c, hpipe, hcz⟩ :=
        adjustLegPipeline_allFail st leg h2 h3 (h4 leg (List.mem_cons_self _ _))
      obtain ⟨st', hloop, hl2, hl3⟩ :=
        ih { st with h2hCache := c } h2 hcz (fun l hl => h4 l (List.mem_cons_of_mem _ hl))
      refine ⟨st', ?_, hl2, hl3⟩
      unfold adjustLegsLoop
      rw [hpipe]
      simp only []
      rw [hloop]
      rfl

lemma attachPlayer_nil (leg : BetLeg) : attachPlayer [] leg = leg := by
  unfold attachPlayer
  cases alistLookup leg.metadata "player_name"
  · rfl
  · simp only []
    split <;> rfl

lemma legAfterNoData_odds (leg : BetLeg) :
    (legAfterNoData leg).odds_american = leg.odds_american := rfl

lemma combinedDecimalOddsAux_some {legs : List BetLeg}
    (h : ∀ l ∈ legs, l.odds_american ≠ 0) :
    ∀ acc : ℚ, ∃ v, combinedDecimalOddsAux acc legs = some v := by
  induction legs with
  | nil => exact fun acc => ⟨acc, rfl⟩
  | cons leg rest ih =>
      intro acc
      have hne := h leg (List.mem_cons_self _ _)
      unfold combinedDecimalOddsAux
      rw [impliedProbability, if_neg hne]
      simp only []
      rw [if_neg (impliedVal_pos hne).ne']
      exact ih (fun l hl => h l (List.mem_cons_of_mem _ hl)) _

lemma scoreLegsAux_some {legs : List BetLeg}
    (h : ∀ l ∈ legs, l.odds_american ≠ 0) :
    ∃ v, scoreLegsAux legs = some v := by
  induction legs with
  | nil => exact ⟨_, rfl⟩
  | cons leg rest ih =>
      have hne := h leg (List.mem_cons_self _ _)
      unfold scoreLegsAux
      rw [show score_leg leg = some
          ⟨(if impliedVal leg.odds_american = 0 then 0
            else ((pyOrQ leg.adjusted_probability
                (pyOrQ leg.baseline_probability (impliedVal leg.odds_american))) -
              impliedVal leg.odds_american) / impliedVal leg.odds_american),
           (noteSignals leg.notes).1, (noteSignals leg.notes).2.1,
           (noteSignals leg.notes).2.2, impliedVal leg.odds_american,
           pyOrQ leg.adjusted_probability
             (pyOrQ leg.baseline_probability (impliedVal leg.odds_american))⟩ by
        unfold score_leg
        rw [impliedProbability, if_neg hne]]
      obtain ⟨v, hv⟩ := ih (fun l hl => h l (List.mem_cons_of_mem _ hl))
      rw [hv]
      obtain ⟨ls, vs, ra⟩ := v
      exact ⟨_, rfl⟩

lemma advisorEvaluate_some (p : Parlay) (h : ∀ l ∈ p.legs, l.odds_american ≠ 0) :
    ∃ r, advisorEvaluate p = some r := by
  obtain ⟨cd, hcd⟩ := combinedDecimalOddsAux_some h 1
  obtain ⟨sc, hsc⟩ := scoreLegsAux_some h
  simp only [advisorEvaluate, combinedDecimalOdds]
  rw [hcd, hsc]
  obtain ⟨ls, vs, ra⟩ := sc
  exact ⟨_, rfl⟩

/-- Claim C1 (amended): with every external fetch failing, the orchestrator
still returns a complete evaluation result (no fetch failure reaches the
caller), the final legs are exactly the no-data defaulting of the input
legs, and every leg whose baseline and adjusted probabilities were both
initially unset ends with
`adjusted_probability = baseline_probability = impliedProbability(odds)`
(a leg with a preset probability keeps it instead — see the
counterexample). -/
theorem evaluate_allFail_complete (p : Parlay)
    (h0 : ∀ leg ∈ p.legs, leg.odds_american ≠ 0) :
    ∃ (r : EvaluationResult) (st' : EvalState),
      evaluateAllFail p =
        some (r, { p with legs := p.legs.map legAfterNoData }, st') ∧
      ∀ leg ∈ p.legs, leg.baseline_probability = none →
        leg.adjusted_probability = none →
        (legAfterNoData leg).baseline_probability =
            impliedProbability leg.odds_american ∧
          (legAfterNoData leg).adjusted_probability =
            impliedProbability leg.odds_american := by
  have hload : loadPlayers allFail (initState true) = initState true := by
    unfold loadPlayers
    rw [if_neg (by simp [initState])]
    rfl
  have hinj2 : loadInjuries allFail (initState true) =
      { initState true with injuryAdjuster := some [] } := by
    unfold loadInjuries
    rw [if_neg (by simp [initState])]
    rfl
  have hmap' : p.legs.map (attachPlayer []) = p.legs := by
    have hfun : attachPlayer ([] : List (String × Player)) = fun l => l :=
      funext attachPlayer_nil
    rw [hfun, List.map_id']
  obtain ⟨stF, hloop, _, _⟩ :=
    adjustLegsLoop_allFail { initState true with injuryAdjuster := some [] }
      p.legs rfl (fun kv hkv => absurd hkv (List.not_mem_nil kv)) h0
  have happly : applyAdjustments allFail (initState true) p =
      some ({ p with legs := p.legs.map legAfterNoData }, stF) := by
    unfold applyAdjustments
    simp only [hload, hinj2]
    rw [show (initState true).playerDir = [] from rfl, hmap']
    rw [show adjustLegsLoop allFail
        { playerDir := [], injuryAdjuster := some [],
          h2hCache := (initState true).h2hCache,
          useLiveData := (initState true).useLiveData } p.legs =
        some (List.map legAfterNoData p.legs, stF) from hloop]
  obtain ⟨r, hr⟩ :=
    advisorEvaluate_some { p with legs := p.legs.map legAfterNoData } (by
      intro l hl
      obtain ⟨l0, hl0, rfl⟩ := List.mem_map.mp hl
      rw [legAfterNoData_odds]
      exact h0 l0 hl0)
  refine ⟨r, stF, ?_, ?_⟩
  · unfold evaluateAllFail evaluateParlay
    rw [happly]
    simp only []
    rw [hr]
  · intro leg hmem hbn han
    constructor
    · simp [legAfterNoData, legBaselineNoData, hbn]
    · simp [legAfterNoData, legBaselineNoData, hbn, han]

/-- A one-leg parlay with no preset probabilities. -/
def unsetParlay : Parlay :=
  ⟨[{ leg_id := "w1", description := "wd", odds_american := 150,
      market_type := "m" }], 2⟩

theorem evaluate_allFail_complete_witness :
    ∃ (r : EvaluationResult) (st' : EvalState),
      evaluateAllFail unsetParlay =
        some (r, { unsetParlay with legs := unsetParlay.legs.map legAfterNoData }, st') ∧
      ∀ leg ∈ unsetParlay.legs, leg.baseline_probability = none →
        leg.adjusted_probability = none →
        (legAfterNoData leg).baseline_probability =
            impliedProbability leg.odds_american ∧
          (legAfterNoData leg).adjusted_probability =
            impliedProbability leg.odds_american :=
  evaluate_allFail_complete unsetParlay (by
    intro leg hl
    rw [List.mem_singleton.mp hl]
    decide)

/-- A one-leg parlay whose baseline probability is preset to 0.7 while its
+150 odds imply 0.4. -/
def presetParlay : Parlay :=
  ⟨[{ leg_id := "l1", description := "preset", odds_american := 150,
      market_type := "custom", baseline_probability := some (7/10) }], 1⟩

/-- Claim C1 counterexample: with all fetches failing, a leg whose baseline
probability was preset to 0.7 finishes the evaluation with
`adjusted = baseline = 0.7`, not the odds-implied probability 0.4 — so the
claim's equality `adjusted == baseline == impliedProbability(odds)` fails
for parlays with preset baselines. -/
theorem evaluate_allFail_preset_cex :
    (evaluateAllFail presetParlay).map
      (fun x => x.2.1.legs.map
        (fun l => (l.adjusted_probability, l.baseline_probability))) =
      some [(some (7/10), some (7/10))] ∧
    impliedProbability 150 = some (2/5) ∧ (7/10 : ℚ) ≠ 2/5 := by
  refine ⟨?_, by norm_num [impliedProbability, impliedVal], by norm_num⟩
  simp [evaluateAllFail, evaluateParlay, applyAdjustments, loadPlayers,
    loadInjuries, initState, allFail, presetParlay, attachPlayer, alistLookup,
    adjustLegsLoop, adjustLegPipeline, stepBaseline, impliedProbability,
    impliedVal, stepInjury, stepDefaultAdjusted, stepHistorical, orElseStr,
    stepMarket, optTruthy, adjust_leg, injuryStep, advisorEvaluate,
    combinedProbability, combinedProbabilityAux, combinedDecimalOdds,
    combinedDecimalOddsAux, score_leg, scoreLegsAux, pyOrQ, noteSignals,
    valueScore, classifyVerdict, evOr0, expectedValueQ]
  norm_num
  exact ⟨_, _, ⟨rfl, rfl⟩, rfl⟩
